import Mathlib

/-!
Verification of the ycode asset-proxy core: the base62 identifier codec
(`uuidToBase62` / `base62ToUuid`), the MIME-to-extension helper
(`mimeToExtension`), the transform-parameter parser
(`parseTransformParams`) and the request orchestrator (`GET`) from
`src/lib/convertion-utils.ts` and `src/app/a/[hash]/[...name]/route.ts`.

JavaScript strings are modelled as Lean `String`/`List Char`, JS `BigInt`
as `Nat` (all values in play are non-negative), thrown exceptions as
`Option`/`Except`, and the external collaborators of the route (asset
catalog, storage client, the `sharp` transcoder and the canonical-path
helper that lives outside the analysed sources) as explicit function
parameters of the orchestrator.
-/

namespace Ycode

/-- The 62-symbol alphabet of the codec: digits, uppercase, lowercase. -/
def BASE62_CHARS : List Char :=
  "0123456789ABCDEFGHIJKLMNOPQRSTUVWXYZabcdefghijklmnopqrstuvwxyz".data

/-- Position of a character in a list (JS `indexOf`, with `none` for -1). -/
def scanIdx (c : Char) : List Char → Option Nat
  | [] => none
  | x :: xs => if x = c then some 0 else (scanIdx c xs).map (· + 1)

/-- `BASE62_CHARS.indexOf char`, `none` modelling the -1 result. -/
def b62Index (c : Char) : Option Nat := scanIdx c BASE62_CHARS

/-- `BASE62_CHARS[d]` (always used in range in the source). -/
def b62Char (d : Nat) : Char := BASE62_CHARS.getD d '0'

/-- Lowercase hex digits, as produced by JS `BigInt.toString(16)`. -/
def HEX_CHARS : List Char := "0123456789abcdef".data

/-- Hex digit character for a value below 16. -/
def hexChar (d : Nat) : Char := HEX_CHARS.getD d '0'

/-- Value of a hex digit character; `BigInt('0x…')` accepts both cases. -/
def hexVal (c : Char) : Option Nat :=
  if '0' ≤ c ∧ c ≤ '9' then some (c.toNat - 48)
  else if 'a' ≤ c ∧ c ≤ 'f' then some (c.toNat - 87)
  else if 'A' ≤ c ∧ c ≤ 'F' then some (c.toNat - 55)
  else none

/-- Big-endian digits of `n` in base `base`, with explicit fuel; with
`fuel > logBase n` this is the digit string the source's division loop
produces (most significant first, empty for 0). -/
def toDigitsBE (base : Nat) : Nat → Nat → List Nat
  | 0, _ => []
  | fuel + 1, n => if n = 0 then [] else toDigitsBE base fuel (n / base) ++ [n % base]

/-- Value of a big-endian digit list: the `acc = acc * base + d` fold. -/
def ofBE (base : Nat) (l : List Nat) : Nat :=
  l.foldl (fun a d => a * base + d) 0

/-- `String.padStart(width, c)` on a char list. -/
def leftPad (width : Nat) (c : Char) (l : List Char) : List Char :=
  List.replicate (width - l.length) c ++ l

/-- The accumulating fold of `base62ToUuid`: `acc = acc * 62 + idx`,
throwing (here `.error`) at the first character outside the alphabet. -/
def b62Fold : List Char → Nat → Except Char Nat
  | [], acc => .ok acc
  | c :: rest, acc =>
    match b62Index c with
    | none => .error c
    | some i => b62Fold rest (acc * 62 + i)

/-- The fold of `BigInt('0x' + hex)`; an empty digit string throws. -/
def hexFold : List Char → Nat → Option Nat
  | [], acc => some acc
  | c :: rest, acc =>
    match hexVal c with
    | none => none
    | some d => hexFold rest (acc * 16 + d)

/-- `BigInt('0x' + hex)` as a partial function. -/
def hexParse (l : List Char) : Option Nat :=
  if l.isEmpty then none else hexFold l 0

/-- `num.toString(16)` for a non-negative BigInt. -/
def natToHexBE (n : Nat) : List Char :=
  if n = 0 then ['0'] else (toDigitsBE 16 (n + 1) n).map hexChar

/-- The base62 division loop of `uuidToBase62` (empty for 0, which the
source short-circuits before the loop). -/
def natToB62BE (n : Nat) : List Char :=
  (toDigitsBE 62 (n + 1) n).map b62Char

/-- The dash-insertion layout of `base62ToUuid`: slices (0,8), (8,12),
(12,16), (16,20), (20,32) of the hex string joined with dashes. -/
def formatUuid (l : List Char) : List Char :=
  l.take 8 ++ ['-'] ++ (l.drop 8).take 4 ++ ['-'] ++ (l.drop 12).take 4 ++ ['-'] ++
    (l.drop 16).take 4 ++ ['-'] ++ (l.drop 20).take 12

/-- `uuidToBase62` from `src/lib/convertion-utils.ts`: strip dashes, read
the rest as hex (`none` models the `BigInt` constructor throwing), then
base62-encode and left-pad to 22 characters. -/
def uuidToBase62 (uuid : String) : Option String :=
  let hex := uuid.data.filter (fun c => c != '-')
  match hexParse hex with
  | none => none
  | some num =>
    if num = 0 then some (String.mk (leftPad 22 '0' ['0']))
    else some (String.mk (leftPad 22 '0' (natToB62BE num)))

/-- `base62ToUuid` from `src/lib/convertion-utils.ts`: fold the token in
base 62 (`.error c` models the thrown `Invalid base62 character` carrying
the offending char), hex-format the value padded to 32 digits and insert
dashes. -/
def base62ToUuid (b62 : String) : Except Char String :=
  match b62Fold b62.data 0 with
  | .error c => .error c
  | .ok num => .ok (String.mk (formatUuid (leftPad 32 '0' (natToHexBE num))))

/-- Canonical dashed lowercase hex rendering of a 128-bit value — exactly
the output format of `base62ToUuid`. -/
def uuidOfNat (n : Nat) : String :=
  String.mk (formatUuid (leftPad 32 '0' (natToHexBE n)))

/-- Numeric value of a token under the decode fold (defined for statements;
agrees with `b62Fold` on tokens made of alphabet characters). -/
def b62Value (s : String) : Nat :=
  ofBE 62 (s.data.map (fun c => (b62Index c).getD 0))

/-! ### Positional-arithmetic lemmas -/

theorem ofBE_nil (b : Nat) : ofBE b [] = 0 := rfl

theorem foldl_step_acc (b : Nat) :
    ∀ (l : List Nat) (a : Nat),
      l.foldl (fun x d => x * b + d) a = a * b ^ l.length + ofBE b l := by
  intro l
  induction l with
  | nil => intro a; simp [ofBE]
  | cons d t ih =>
    intro a
    have ht : ofBE b (d :: t) = d * b ^ t.length + ofBE b t := by
      show t.foldl (fun x d => x * b + d) (0 * b + d) = _
      rw [ih]; ring_nf
    simp only [List.foldl_cons, List.length_cons, ht]
    rw [ih]
    ring

theorem ofBE_cons (b d : Nat) (l : List Nat) :
    ofBE b (d :: l) = d * b ^ l.length + ofBE b l := by
  show l.foldl (fun x d => x * b + d) (0 * b + d) = _
  rw [foldl_step_acc]; ring_nf

theorem ofBE_append_single (b d : Nat) (l : List Nat) :
    ofBE b (l ++ [d]) = ofBE b l * b + d := by
  simp [ofBE, List.foldl_append]

theorem ofBE_replicate_zero (b k : Nat) (l : List Nat) :
    ofBE b (List.replicate k 0 ++ l) = ofBE b l := by
  induction k with
  | zero => simp
  | succ m ih =>
    have : List.replicate (m + 1) 0 ++ l = 0 :: (List.replicate m 0 ++ l) := by
      simp [List.replicate_succ]
    rw [this, ofBE_cons, ih]
    simp

theorem ofBE_toDigitsBE (b : Nat) (hb : 2 ≤ b) :
    ∀ (f n : Nat), n < b ^ f → ofBE b (toDigitsBE b f n) = n := by
  intro f
  induction f with
  | zero =>
    intro n hn
    have h0 : n = 0 := by simpa using hn
    subst h0
    rfl
  | succ m ih =>
    intro n hn
    by_cases h0 : n = 0
    · subst h0; simp [toDigitsBE, ofBE]
    · have hdiv : n / b < b ^ m := by
        rw [Nat.div_lt_iff_lt_mul (by omega)]
        calc n < b ^ (m + 1) := hn
        _ = b ^ m * b := by ring
      simp only [toDigitsBE, h0, if_false]
      rw [ofBE_append_single, ih _ hdiv, Nat.mul_comm]
      exact Nat.div_add_mod n b

theorem toDigitsBE_digit_lt (b : Nat) (hb : 0 < b) :
    ∀ (f n d : Nat), d ∈ toDigitsBE b f n → d < b := by
  intro f
  induction f with
  | zero => intro n d h; simp [toDigitsBE] at h
  | succ m ih =>
    intro n d h
    by_cases h0 : n = 0
    · subst h0; simp [toDigitsBE] at h
    · simp only [toDigitsBE, h0, if_false, List.mem_append, List.mem_singleton] at h
      rcases h with h | h
      · exact ih _ _ h
      · subst h; exact Nat.mod_lt _ hb

theorem toDigitsBE_length_le (b : Nat) (hb : 2 ≤ b) :
    ∀ (f n k : Nat), n < b ^ k → (toDigitsBE b f n).length ≤ k := by
  intro f
  induction f with
  | zero => intro n k _; simp [toDigitsBE]
  | succ m ih =>
    intro n k hn
    by_cases h0 : n = 0
    · subst h0; simp [toDigitsBE]
    · cases k with
      | zero => simp at hn; omega
      | succ j =>
        have hdiv : n / b < b ^ j := by
          rw [Nat.div_lt_iff_lt_mul (by omega)]
          calc n < b ^ (j + 1) := hn
          _ = b ^ j * b := by ring
        simp only [toDigitsBE, h0, if_false, List.length_append, List.length_singleton]
        have := ih (n / b) j hdiv
        omega

theorem ofBE_lt (b : Nat) (hb : 1 ≤ b) :
    ∀ (l : List Nat), (∀ d ∈ l, d < b) → ofBE b l < b ^ l.length := by
  intro l
  induction l with
  | nil => intro _; simp [ofBE]
  | cons d t ih =>
    intro h
    have hd : d < b := h d (by simp)
    have ht : ofBE b t < b ^ t.length := ih (fun x hx => h x (by simp [hx]))
    rw [ofBE_cons]
    calc d * b ^ t.length + ofBE b t < d * b ^ t.length + b ^ t.length := by omega
    _ = (d + 1) * b ^ t.length := by ring
    _ ≤ b * b ^ t.length := Nat.mul_le_mul_right _ (by omega)
    _ = b ^ (d :: t).length := by rw [List.length_cons]; ring

theorem ofBE_inj (b : Nat) (hb : 2 ≤ b) :
    ∀ (l1 l2 : List Nat), l1.length = l2.length →
      (∀ d ∈ l1, d < b) → (∀ d ∈ l2, d < b) →
      ofBE b l1 = ofBE b l2 → l1 = l2 := by
  intro l1
  induction l1 with
  | nil =>
    intro l2 hlen _ _ _
    exact (List.length_eq_zero.mp hlen.symm).symm
  | cons d1 t1 ih =>
    intro l2 hlen h1 h2 hval
    cases l2 with
    | nil => simp at hlen
    | cons d2 t2 =>
      have hL : t1.length = t2.length := by simpa using hlen
      have hp : 0 < b ^ t1.length := Nat.pos_pow_of_pos _ (by omega)
      have hv1 : ofBE b t1 < b ^ t1.length :=
        ofBE_lt b (by omega) t1 (fun x hx => h1 x (by simp [hx]))
      have hv2 : ofBE b t2 < b ^ t1.length := by
        rw [hL]
        exact ofBE_lt b (by omega) t2 (fun x hx => h2 x (by simp [hx]))
      rw [ofBE_cons, ofBE_cons, ← hL] at hval
      have hd : d1 = d2 := by
        have e1 : (d1 * b ^ t1.length + ofBE b t1) / b ^ t1.length = d1 := by
          rw [Nat.mul_comm d1, Nat.mul_add_div hp, Nat.div_eq_of_lt hv1, Nat.add_zero]
        have e2 : (d2 * b ^ t1.length + ofBE b t2) / b ^ t1.length = d2 := by
          rw [Nat.mul_comm d2, Nat.mul_add_div hp, Nat.div_eq_of_lt hv2, Nat.add_zero]
        rw [← e1, ← e2, hval]
      subst hd
      have ht : ofBE b t1 = ofBE b t2 := by omega
      have := ih t2 hL (fun x hx => h1 x (by simp [hx])) (fun x hx => h2 x (by simp [hx])) ht
      rw [this]

/-! ### Alphabet lemmas -/

theorem scanIdx_spec (c : Char) :
    ∀ (l : List Char) (i : Nat), scanIdx c l = some i → i < l.length ∧ l.getD i '0' = c := by
  intro l
  induction l with
  | nil => intro i h; simp [scanIdx] at h
  | cons x xs ih =>
    intro i h
    by_cases hx : x = c
    · simp [scanIdx, hx] at h
      subst h
      simp [hx]
    · simp only [scanIdx, hx, if_false, Option.map_eq_some'] at h
      obtain ⟨j, hj, hij⟩ := h
      obtain ⟨hlt, hget⟩ := ih j hj
      subst hij
      constructor
      · simp; omega
      · simpa using hget

theorem b62Index_lt (c : Char) (i : Nat) (h : b62Index c = some i) : i < 62 :=
  (scanIdx_spec c BASE62_CHARS i h).1

theorem b62Char_b62Index (c : Char) (i : Nat) (h : b62Index c = some i) : b62Char i = c :=
  (scanIdx_spec c BASE62_CHARS i h).2

theorem b62Index_b62Char : ∀ d : Nat, d < 62 → b62Index (b62Char d) = some d := by decide

theorem hexVal_hexChar : ∀ d : Nat, d < 16 → hexVal (hexChar d) = some d := by decide

theorem hexChar_mem : ∀ d : Nat, d < 16 → hexChar d ∈ HEX_CHARS := by decide

theorem hex_ne_dash : ∀ c ∈ HEX_CHARS, c ≠ '-' := by decide

/-! ### Fold lemmas -/

theorem b62Fold_map (ds : List Nat) :
    ∀ a : Nat, (∀ d ∈ ds, d < 62) →
      b62Fold (ds.map b62Char) a = .ok (ds.foldl (fun x d => x * 62 + d) a) := by
  induction ds with
  | nil => intro a _; rfl
  | cons d t ih =>
    intro a h
    have hd : d < 62 := h d (by simp)
    simp only [List.map_cons, b62Fold, b62Index_b62Char d hd, List.foldl_cons]
    exact ih _ (fun x hx => h x (by simp [hx]))

theorem hexFold_map (ds : List Nat) :
    ∀ a : Nat, (∀ d ∈ ds, d < 16) →
      hexFold (ds.map hexChar) a = some (ds.foldl (fun x d => x * 16 + d) a) := by
  induction ds with
  | nil => intro a _; rfl
  | cons d t ih =>
    intro a h
    have hd : d < 16 := h d (by simp)
    simp only [List.map_cons, hexFold, hexVal_hexChar d hd, List.foldl_cons]
    exact ih _ (fun x hx => h x (by simp [hx]))

/-- First character of the token outside the alphabet, if any. -/
def firstInvalid (s : String) : Option Char :=
  s.data.find? (fun c => (b62Index c).isNone)

theorem b62Fold_eq_error (c : Char) :
    ∀ (l : List Char) (a : Nat),
      l.find? (fun x => (b62Index x).isNone) = some c → b62Fold l a = .error c := by
  intro l
  induction l with
  | nil => intro a h; simp [List.find?] at h
  | cons x xs ih =>
    intro a h
    cases hx : b62Index x with
    | none =>
      rw [List.find?_cons_of_pos _ (by simp [hx])] at h
      simp only [Option.some.injEq] at h
      subst h
      simp [b62Fold, hx]
    | some i =>
      rw [List.find?_cons_of_neg _ (by simp [hx])] at h
      simp only [b62Fold, hx]
      exact ih _ h

theorem b62Fold_eq_ok :
    ∀ (l : List Char) (a : Nat),
      l.find? (fun x => (b62Index x).isNone) = none →
      b62Fold l a = .ok (l.foldl (fun x c => x * 62 + (b62Index c).getD 0) a) := by
  intro l
  induction l with
  | nil => intro a _; rfl
  | cons x xs ih =>
    intro a h
    rw [List.find?_cons] at h
    cases hx : b62Index x with
    | none => simp [hx] at h
    | some i =>
      simp only [hx, Option.isNone_some] at h
      simp only [b62Fold, hx, List.foldl_cons, hx, Option.getD_some]
      exact ih _ (by simpa [hx] using h)

/-! ### Codec round-trip lemmas -/

theorem lt_pow_self_succ (b n : Nat) (hb : 2 ≤ b) : n < b ^ (n + 1) := by
  calc n < 2 ^ n := Nat.lt_two_pow n
  _ ≤ b ^ n := Nat.pow_le_pow_left hb n
  _ ≤ b ^ (n + 1) := Nat.pow_le_pow_right (by omega) (by omega)

theorem leftPad_length (w : Nat) (c : Char) (l : List Char) :
    (leftPad w c l).length = max w l.length := by
  simp [leftPad]
  omega

theorem hexParse_map (ds : List Nat) (hds : ∀ d ∈ ds, d < 16) (hne : ds ≠ []) :
    hexParse (ds.map hexChar) = some (ofBE 16 ds) := by
  have hlen : (ds.map hexChar).isEmpty = false := by
    cases ds with
    | nil => exact absurd rfl hne
    | cons d t => rfl
  rw [hexParse, hlen, if_neg (by simp)]
  exact hexFold_map ds 0 hds

theorem leftPad_natToHexBE_map (n : Nat) :
    leftPad 32 '0' (natToHexBE n) =
      (List.replicate (32 - (natToHexBE n).length) 0 ++
        (if n = 0 then [0] else toDigitsBE 16 (n + 1) n)).map hexChar := by
  rw [List.map_append, List.map_replicate]
  by_cases h0 : n = 0
  · subst h0; rfl
  · simp only [h0, if_false, leftPad, natToHexBE]
    rfl

theorem hexDigits_lt (n : Nat) :
    ∀ d ∈ (List.replicate (32 - (natToHexBE n).length) 0 ++
      (if n = 0 then [0] else toDigitsBE 16 (n + 1) n)), d < 16 := by
  intro d hd
  rcases List.mem_append.mp hd with h | h
  · have := List.eq_of_mem_replicate h
    omega
  · by_cases h0 : n = 0
    · simp [h0] at h; omega
    · simp only [h0, if_false] at h
      exact toDigitsBE_digit_lt 16 (by omega) _ _ _ h

theorem ifHexDigits_ne_nil (n : Nat) :
    (if n = 0 then [0] else toDigitsBE 16 (n + 1) n) ≠ [] := by
  by_cases h0 : n = 0
  · simp [h0]
  · simp [toDigitsBE, h0]

theorem hexParse_leftPad_natToHexBE (n : Nat) :
    hexParse (leftPad 32 '0' (natToHexBE n)) = some n := by
  rw [leftPad_natToHexBE_map]
  rw [hexParse_map _ (hexDigits_lt n)
    (by
      intro hc
      rcases List.append_eq_nil.mp hc with ⟨h1, h2⟩
      exact ifHexDigits_ne_nil n h2)]
  rw [ofBE_replicate_zero]
  by_cases h0 : n = 0
  · subst h0; rfl
  · simp only [h0, if_false]
    rw [ofBE_toDigitsBE 16 (by omega) _ _ (lt_pow_self_succ 16 n (by omega))]

theorem natToHexBE_mem_hex (n : Nat) : ∀ c ∈ natToHexBE n, c ∈ HEX_CHARS := by
  intro c hc
  by_cases h0 : n = 0
  · subst h0; simp [natToHexBE] at hc; subst hc; decide
  · simp only [natToHexBE, h0, if_false, List.mem_map] at hc
    obtain ⟨d, hd, hcd⟩ := hc
    subst hcd
    exact hexChar_mem d (toDigitsBE_digit_lt 16 (by omega) _ _ _ hd)

theorem leftPad_natToHexBE_mem_hex (n : Nat) :
    ∀ c ∈ leftPad 32 '0' (natToHexBE n), c ∈ HEX_CHARS := by
  intro c hc
  rcases List.mem_append.mp hc with h | h
  · have := List.eq_of_mem_replicate h
    subst this; decide
  · exact natToHexBE_mem_hex n c h

theorem natToHexBE_length_le (n k : Nat) (hk : 0 < k) (h : n < 16 ^ k) :
    (natToHexBE n).length ≤ k := by
  by_cases h0 : n = 0
  · subst h0; simpa [natToHexBE] using hk
  · simp only [natToHexBE, h0, if_false, List.length_map]
    exact toDigitsBE_length_le 16 (by omega) _ _ _ h

theorem natToB62BE_length_le (n k : Nat) (h : n < 62 ^ k) :
    (natToB62BE n).length ≤ k := by
  simp only [natToB62BE, List.length_map]
  exact toDigitsBE_length_le 62 (by omega) _ _ _ h

theorem formatUuid_reassemble (l : List Char) (h : l.length = 32) :
    l.take 8 ++ ((l.drop 8).take 4 ++ ((l.drop 12).take 4 ++
      ((l.drop 16).take 4 ++ (l.drop 20).take 12))) = l := by
  have e20 : (l.drop 20).take 12 = l.drop 20 :=
    List.take_of_length_le (by simp [h])
  have d16 : (l.drop 16).drop 4 = l.drop 20 := by
    rw [List.drop_drop]
  have d12 : (l.drop 12).drop 4 = l.drop 16 := by
    rw [List.drop_drop]
  have d8 : (l.drop 8).drop 4 = l.drop 12 := by
    rw [List.drop_drop]
  rw [e20, ← d16, List.take_append_drop, ← d12, List.take_append_drop,
    ← d8, List.take_append_drop, List.take_append_drop]

theorem formatUuid_filter (l : List Char) (h32 : l.length = 32)
    (hnd : ∀ c ∈ l, c ≠ '-') :
    (formatUuid l).filter (fun c => c != '-') = l := by
  have hsub : ∀ m : List Char, m ⊆ l → m.filter (fun c => c != '-') = m := by
    intro m hm
    apply List.filter_eq_self.mpr
    intro c hc
    simpa using hnd c (hm hc)
  have hdash : ((['-'] : List Char).filter (fun c => c != '-')) = [] := rfl
  have hsub8 : l.take 8 ⊆ l := List.take_subset _ _
  have hs : ∀ k j : Nat, (l.drop k).take j ⊆ l :=
    fun k j => fun x hx => List.drop_subset _ _ (List.take_subset _ _ hx)
  simp only [formatUuid, List.filter_append, hdash, hsub _ hsub8,
    hsub _ (hs 8 4), hsub _ (hs 12 4), hsub _ (hs 16 4), hsub _ (hs 20 12),
    List.append_nil, List.nil_append, List.append_assoc]
  exact formatUuid_reassemble l h32

theorem uuidOfNat_data (n : Nat) :
    (uuidOfNat n).data = formatUuid (leftPad 32 '0' (natToHexBE n)) := rfl

theorem uuidToBase62_uuidOfNat (n : Nat) (h : n < 2 ^ 128) :
    uuidToBase62 (uuidOfNat n) = some (String.mk (leftPad 22 '0' (natToB62BE n))) := by
  have h16 : n < 16 ^ 32 := by
    calc n < 2 ^ 128 := h
    _ = 16 ^ 32 := by norm_num
  have hlen : (leftPad 32 '0' (natToHexBE n)).length = 32 := by
    rw [leftPad_length]
    have := natToHexBE_length_le n 32 (by omega) h16
    omega
  have hnd : ∀ c ∈ leftPad 32 '0' (natToHexBE n), c ≠ '-' :=
    fun c hc => hex_ne_dash c (leftPad_natToHexBE_mem_hex n c hc)
  rw [uuidToBase62, uuidOfNat]
  simp only [String.data]
  rw [formatUuid_filter _ hlen hnd, hexParse_leftPad_natToHexBE]
  by_cases h0 : n = 0
  · subst h0
    simp only [if_pos rfl]
    have : natToB62BE 0 = [] := rfl
    rw [this]
    have e : leftPad 22 '0' ['0'] = leftPad 22 '0' [] := by
      show List.replicate 21 '0' ++ ['0'] = List.replicate 22 '0' ++ []
      rw [List.append_nil, ← List.replicate_succ' 21 '0']
    rw [e]
    simp
  · simp [h0]

theorem base62ToUuid_leftPad_natToB62 (n : Nat) :
    base62ToUuid (String.mk (leftPad 22 '0' (natToB62BE n))) = .ok (uuidOfNat n) := by
  have hmap : leftPad 22 '0' (natToB62BE n) =
      (List.replicate (22 - (natToB62BE n).length) 0 ++ toDigitsBE 62 (n + 1) n).map b62Char := by
    rw [List.map_append, List.map_replicate]
    rfl
  have hlt : ∀ d ∈ List.replicate (22 - (natToB62BE n).length) 0 ++ toDigitsBE 62 (n + 1) n,
      d < 62 := by
    intro d hd
    rcases List.mem_append.mp hd with hh | hh
    · have := List.eq_of_mem_replicate hh; omega
    · exact toDigitsBE_digit_lt 62 (by omega) _ _ _ hh
  rw [base62ToUuid]
  simp only [String.data]
  rw [hmap, b62Fold_map _ 0 hlt]
  have : ofBE 62 (List.replicate (22 - (natToB62BE n).length) 0 ++ toDigitsBE 62 (n + 1) n)
      = n := by
    rw [ofBE_replicate_zero]
    exact ofBE_toDigitsBE 62 (by omega) _ _ (lt_pow_self_succ 62 n (by omega))
  rw [show List.foldl (fun x d => x * 62 + d) 0
      (List.replicate (22 - (natToB62BE n).length) 0 ++ toDigitsBE 62 (n + 1) n) = n from this]
  rfl

theorem two_pow_128_le_62_pow_22 : (2 : Nat) ^ 128 ≤ 62 ^ 22 := by norm_num

/-- Decoding a token made only of alphabet characters succeeds, and yields
the dashed-hex rendering of its base-62 value. -/
theorem base62ToUuid_of_valid (t : String)
    (hv : ∀ c ∈ t.data, (b62Index c).isSome) :
    base62ToUuid t = .ok (uuidOfNat (b62Value t)) := by
  have hfind : t.data.find? (fun x => (b62Index x).isNone) = none := by
    apply List.find?_eq_none.mpr
    intro x hx
    have := hv x hx
    cases h : b62Index x with
    | none => rw [h] at this; simp at this
    | some i => simp [h]
  rw [base62ToUuid, b62Fold_eq_ok _ _ hfind]
  have hval : t.data.foldl (fun x c => x * 62 + (b62Index c).getD 0) 0 = b62Value t := by
    rw [b62Value, ofBE, List.foldl_map]
  rw [hval]
  rfl

/-- A 22-character alphabet token whose value fits in 128 bits is exactly
the canonical (left-padded) base-62 rendering of that value. -/
theorem token_canonical (t : String)
    (hv : ∀ c ∈ t.data, (b62Index c).isSome)
    (hl : t.length = 22) (hb : b62Value t < 2 ^ 128) :
    String.mk (leftPad 22 '0' (natToB62BE (b62Value t))) = t := by
  have hl' : t.data.length = 22 := hl
  have hds_lt : ∀ d ∈ t.data.map (fun c => (b62Index c).getD 0), d < 62 := by
    intro d hd
    obtain ⟨c, hc, hval⟩ := List.mem_map.mp hd
    obtain ⟨i, hi⟩ := Option.isSome_iff_exists.mp (hv c hc)
    rw [hi] at hval
    simp at hval
    subst hval
    exact b62Index_lt c i hi
  have hds_len : (t.data.map (fun c => (b62Index c).getD 0)).length = 22 := by
    simpa using hl'
  have hofds : ofBE 62 (t.data.map (fun c => (b62Index c).getD 0)) = b62Value t := rfl
  have hlen62 : (natToB62BE (b62Value t)).length ≤ 22 :=
    natToB62BE_length_le _ 22 (lt_of_lt_of_le hb two_pow_128_le_62_pow_22)
  have hlen62' : (toDigitsBE 62 (b62Value t + 1) (b62Value t)).length ≤ 22 := by
    simpa [natToB62BE] using hlen62
  have hes_len :
      (List.replicate (22 - (natToB62BE (b62Value t)).length) 0 ++
        toDigitsBE 62 (b62Value t + 1) (b62Value t)).length = 22 := by
    simp [natToB62BE]
    omega
  have hes_lt : ∀ d ∈ List.replicate (22 - (natToB62BE (b62Value t)).length) 0 ++
      toDigitsBE 62 (b62Value t + 1) (b62Value t), d < 62 := by
    intro d hd
    rcases List.mem_append.mp hd with h | h
    · have := List.eq_of_mem_replicate h; omega
    · exact toDigitsBE_digit_lt 62 (by omega) _ _ _ h
  have hes_val : ofBE 62 (List.replicate (22 - (natToB62BE (b62Value t)).length) 0 ++
      toDigitsBE 62 (b62Value t + 1) (b62Value t)) = b62Value t := by
    rw [ofBE_replicate_zero]
    exact ofBE_toDigitsBE 62 (by omega) _ _ (lt_pow_self_succ 62 _ (by omega))
  have heq : List.replicate (22 - (natToB62BE (b62Value t)).length) 0 ++
      toDigitsBE 62 (b62Value t + 1) (b62Value t) =
      t.data.map (fun c => (b62Index c).getD 0) :=
    ofBE_inj 62 (by omega) _ _ (by rw [hes_len, hds_len]) hes_lt hds_lt
      (by rw [hes_val, hofds])
  have hmap : leftPad 22 '0' (natToB62BE (b62Value t)) =
      (List.replicate (22 - (natToB62BE (b62Value t)).length) 0 ++
        toDigitsBE 62 (b62Value t + 1) (b62Value t)).map b62Char := by
    rw [List.map_append, List.map_replicate]
    rfl
  have hback : (t.data.map (fun c => (b62Index c).getD 0)).map b62Char = t.data := by
    rw [List.map_map]
    have hpt : ∀ c ∈ t.data, (b62Char ∘ fun c => (b62Index c).getD 0) c = id c := by
      intro c hc
      obtain ⟨i, hi⟩ := Option.isSome_iff_exists.mp (hv c hc)
      simp only [Function.comp_apply, hi, Option.getD_some, id_eq]
      exact b62Char_b62Index c i hi
    rw [List.map_congr_left hpt, List.map_id]
  rw [hmap, heq, hback]

/-- Output shape of the decoder: 36 characters, dashes at positions
8, 13, 18, 23, lowercase-hex digits elsewhere (the spec's "dashed hex
identifier"). -/
def IsDashedHex (s : String) : Prop :=
  ∃ p1 p2 p3 p4 p5 : List Char,
    s.data = p1 ++ '-' :: (p2 ++ '-' :: (p3 ++ '-' :: (p4 ++ '-' :: p5))) ∧
    p1.length = 8 ∧ p2.length = 4 ∧ p3.length = 4 ∧ p4.length = 4 ∧ p5.length = 12 ∧
    (∀ c ∈ p1 ++ p2 ++ p3 ++ p4 ++ p5, c ∈ HEX_CHARS)

theorem isDashedHex_uuidOfNat (n : Nat) : IsDashedHex (uuidOfNat n) := by
  have hlen : 32 ≤ (leftPad 32 '0' (natToHexBE n)).length := by
    rw [leftPad_length]; omega
  have hmem : ∀ c ∈ leftPad 32 '0' (natToHexBE n), c ∈ HEX_CHARS :=
    leftPad_natToHexBE_mem_hex n
  refine ⟨(leftPad 32 '0' (natToHexBE n)).take 8,
    ((leftPad 32 '0' (natToHexBE n)).drop 8).take 4,
    ((leftPad 32 '0' (natToHexBE n)).drop 12).take 4,
    ((leftPad 32 '0' (natToHexBE n)).drop 16).take 4,
    ((leftPad 32 '0' (natToHexBE n)).drop 20).take 12, ?_, ?_, ?_, ?_, ?_, ?_, ?_⟩
  · show formatUuid (leftPad 32 '0' (natToHexBE n)) = _
    simp [formatUuid, List.append_assoc]
  · simp; omega
  · simp; omega
  · simp; omega
  · simp; omega
  · simp; omega
  · intro c hc
    apply hmem
    simp only [List.mem_append] at hc
    rcases hc with ((((h | h) | h) | h) | h)
    · exact List.take_subset _ _ h
    all_goals exact List.drop_subset _ _ (List.take_subset _ _ h)

/-! ### Claim C1 -/

/-- C1, as stated, is false in its second direction: the 22-character
token of 22 `z` characters is made only of alphabet symbols, yet its
value exceeds 2^128, the decoder truncates the 33-digit hex string to 32
digits, and re-encoding yields a different token. -/
theorem c1_token_roundtrip_cex :
    (∀ c ∈ ("zzzzzzzzzzzzzzzzzzzzzz" : String).data, (b62Index c).isSome) ∧
    ("zzzzzzzzzzzzzzzzzzzzzz" : String).length = 22 ∧
    base62ToUuid "zzzzzzzzzzzzzzzzzzzzzz" = .ok "7f520034-c430-770c-4245-28c66503ffff" ∧
    uuidToBase62 "7f520034-c430-770c-4245-28c66503ffff" = some "3sFUzzzzzzzzzzzzzzzzzz" ∧
    ("3sFUzzzzzzzzzzzzzzzzzz" : String) ≠ "zzzzzzzzzzzzzzzzzzzzzz" := by
  refine ⟨by decide, rfl, rfl, rfl, by decide⟩

/-- C1 (amended): the codec is a bijection between 128-bit identifiers
(in dashed-hex form) and the 22-character base-62 tokens whose decoded
value fits in 128 bits. Decode inverts encode on every 128-bit
identifier; encode inverts decode on every valid 22-character token
whose value is below 2^128 (tokens of larger value are truncated, per
`c1_token_roundtrip_cex`). -/
theorem c1_codec_bijection :
    (∀ n : Nat, n < 2 ^ 128 →
      ∃ t, uuidToBase62 (uuidOfNat n) = some t ∧ base62ToUuid t = .ok (uuidOfNat n)) ∧
    (∀ t : String, (∀ c ∈ t.data, (b62Index c).isSome) → t.length = 22 →
      b62Value t < 2 ^ 128 →
      ∃ u, base62ToUuid t = .ok u ∧ uuidToBase62 u = some t) := by
  constructor
  · intro n hn
    exact ⟨String.mk (leftPad 22 '0' (natToB62BE n)),
      uuidToBase62_uuidOfNat n hn, base62ToUuid_leftPad_natToB62 n⟩
  · intro t hv hl hb
    refine ⟨uuidOfNat (b62Value t), base62ToUuid_of_valid t hv, ?_⟩
    rw [uuidToBase62_uuidOfNat _ hb, token_canonical t hv hl hb]

/-- Witness for C1: both directions at concrete inputs. -/
theorem c1_codec_bijection_witness :
    (∃ t, uuidToBase62 (uuidOfNat 1) = some t ∧ base62ToUuid t = .ok (uuidOfNat 1)) ∧
    (∃ u, base62ToUuid "0000000000000000000001" = .ok u ∧
      uuidToBase62 u = some "0000000000000000000001") :=
  ⟨c1_codec_bijection.1 1 (by norm_num),
   c1_codec_bijection.2 "0000000000000000000001" (by decide) rfl (by decide)⟩

/-! ### Claim C6 -/

/-- C6: `base62ToUuid` fails exactly on inputs containing a character
outside the 62-symbol alphabet, raising at the first such character; on
every input made only of alphabet characters — of any length — it
succeeds and returns a dashed hex identifier. -/
theorem c6_decode_error_domain :
    (∀ (s : String) (c : Char), firstInvalid s = some c → base62ToUuid s = .error c) ∧
    (∀ s : String, firstInvalid s = none →
      ∃ u, base62ToUuid s = .ok u ∧ IsDashedHex u) := by
  constructor
  · intro s c h
    rw [base62ToUuid, b62Fold_eq_error c s.data 0 h]
  · intro s h
    have hv : ∀ c ∈ s.data, (b62Index c).isSome := by
      intro c hc
      have := List.find?_eq_none.mp h c hc
      cases hidx : b62Index c with
      | none => rw [hidx] at this; simp at this
      | some i => rfl
    exact ⟨uuidOfNat (b62Value s), base62ToUuid_of_valid s hv,
      isDashedHex_uuidOfNat (b62Value s)⟩

/-- Witness for C6: a token failing at its first invalid character, and
a 2-character (non-22) all-alphabet token that still decodes. -/
theorem c6_decode_error_domain_witness :
    base62ToUuid "ab!c?d" = .error '!' ∧
    (∃ u, base62ToUuid "zz" = .ok u ∧ IsDashedHex u) :=
  ⟨c6_decode_error_domain.1 "ab!c?d" '!' (by decide),
   c6_decode_error_domain.2 "zz" (by decide)⟩

/-! ### Claim C7 -/

/-- C7: for every 128-bit identifier the encoder returns exactly 22
characters, and the all-zero identifier encodes to 22 zero symbols. -/
theorem c7_encode_length :
    (∀ n : Nat, n < 2 ^ 128 →
      ∃ t, uuidToBase62 (uuidOfNat n) = some t ∧ t.length = 22) ∧
    uuidToBase62 (uuidOfNat 0) = some "0000000000000000000000" := by
  constructor
  · intro n hn
    refine ⟨String.mk (leftPad 22 '0' (natToB62BE n)), uuidToBase62_uuidOfNat n hn, ?_⟩
    show (leftPad 22 '0' (natToB62BE n)).length = 22
    rw [leftPad_length]
    have := natToB62BE_length_le n 22 (lt_of_lt_of_le hn two_pow_128_le_62_pow_22)
    omega
  · decide

/-- Witness for C7 at the largest 128-bit value. -/
theorem c7_encode_length_witness :
    ∃ t, uuidToBase62 (uuidOfNat (2 ^ 128 - 1)) = some t ∧ t.length = 22 :=
  c7_encode_length.1 (2 ^ 128 - 1) (by norm_num)

/-! ### mimeToExtension (claim C9) -/

/-- The fixed MIME→extension table of `mimeToExtension`. -/
def mimeExtensionTable : List (String × String) :=
  [("image/jpeg", "jpg"), ("image/jpg", "jpg"), ("image/png", "png"),
   ("image/gif", "gif"), ("image/webp", "webp"), ("image/avif", "avif"),
   ("image/bmp", "bmp"), ("image/tiff", "tiff"), ("image/svg+xml", "svg"),
   ("video/mp4", "mp4"), ("video/mpeg", "mpeg"), ("video/webm", "webm"),
   ("video/ogg", "ogv"), ("video/quicktime", "mov"), ("audio/mpeg", "mp3"),
   ("audio/mp3", "mp3"), ("audio/wav", "wav"), ("audio/ogg", "ogg"),
   ("audio/webm", "weba"), ("audio/aac", "aac"), ("application/pdf", "pdf")]

/-- JS `String.split(sep)` on a char list: always at least one segment,
`""` splits to `[""]`, a trailing separator yields a trailing empty
segment. -/
def jsSplit (sep : Char) : List Char → List (List Char)
  | [] => [[]]
  | c :: rest =>
    match jsSplit sep rest with
    | [] => [[]]
    | seg :: segs => if c = sep then [] :: seg :: segs else (c :: seg) :: segs

/-- Property names the extension-table object literal inherits from
`Object.prototype`: JS bracket access `map[mimeType]` finds these even
though they are not own keys of the literal, and each inherited member
is truthy (a function, or the prototype object for `__proto__`). -/
def OBJECT_PROTOTYPE_MEMBERS : List String :=
  ["constructor", "hasOwnProperty", "isPrototypeOf", "propertyIsEnumerable",
   "toLocaleString", "toString", "valueOf",
   "__defineGetter__", "__defineSetter__", "__lookupGetter__", "__lookupSetter__",
   "__proto__"]

/-- What `mimeToExtension` returns at runtime: normally a string, but
for an `Object.prototype` member name the bracket lookup yields the
truthy inherited (non-string) member, which the function returns as-is. -/
inductive MimeExt where
  | str (s : String)
  | inherited (name : String)
  deriving DecidableEq

/-- `mimeToExtension` from `src/lib/convertion-utils.ts`: `map[mimeType]`
finds an own key of the table first, else an `Object.prototype` member
(returned directly, both being truthy), else is `undefined` (falsy) and
the result is `mimeType.split('/').pop() || 'bin'` (the empty string is
falsy). -/
def mimeToExtension (mimeType : String) : MimeExt :=
  match mimeExtensionTable.lookup mimeType with
  | some e => .str e
  | none =>
    if mimeType ∈ OBJECT_PROTOTYPE_MEMBERS then .inherited mimeType
    else
      let s := String.mk ((jsSplit '/' mimeType.data).getLastD [])
      if s = "" then .str "bin" else .str s

/-- The spec's "subtype segment": the part of the MIME string after the
last `'/'` (the whole string when no `'/'` occurs). -/
def subtypeSeg (m : String) : List Char :=
  (m.data.reverse.takeWhile (fun c => c != '/')).reverse

/-- `mimeToExtension` as the spec words it: the table entry when the MIME
type is a key, otherwise the subtype segment, or `"bin"` when that
segment is absent (empty). -/
def mimeToExtensionSpec (m : String) : String :=
  match mimeExtensionTable.lookup m with
  | some e => e
  | none => if subtypeSeg m = [] then "bin" else String.mk (subtypeSeg m)

theorem jsSplit_ne_nil (sep : Char) (l : List Char) : jsSplit sep l ≠ [] := by
  cases l with
  | nil => simp [jsSplit]
  | cons c rest =>
    simp only [jsSplit]
    cases jsSplit sep rest with
    | nil => simp
    | cons seg segs =>
      by_cases h : c = sep <;> simp [h]

theorem jsSplit_of_not_mem (sep : Char) :
    ∀ l : List Char, sep ∉ l → jsSplit sep l = [l] := by
  intro l
  induction l with
  | nil => intro _; rfl
  | cons c rest ih =>
    intro h
    have hc : c ≠ sep := fun hh => h (by simp [hh])
    have hr : sep ∉ rest := fun hh => h (by simp [hh])
    simp only [jsSplit, ih hr]
    simp [hc]

theorem jsSplit_length (sep : Char) :
    ∀ l : List Char, (jsSplit sep l).length = l.count sep + 1 := by
  intro l
  induction l with
  | nil => rfl
  | cons c rest ih =>
    obtain ⟨seg, segs, hsplit⟩ : ∃ seg segs, jsSplit sep rest = seg :: segs := by
      cases hs : jsSplit sep rest with
      | nil => exact absurd hs (jsSplit_ne_nil sep rest)
      | cons a b => exact ⟨a, b, rfl⟩
    rw [hsplit] at ih
    simp only [jsSplit, hsplit]
    by_cases h : c = sep
    · rw [if_pos h, h, List.count_cons_self, List.length_cons]
      simpa using ih
    · rw [if_neg h, List.count_cons_of_ne (fun hh => h hh.symm), List.length_cons]
      simpa using ih

theorem takeWhile_append_all (p : Char → Bool) :
    ∀ (l1 l2 : List Char), (∀ x ∈ l1, p x = true) →
      (l1 ++ l2).takeWhile p = l1 ++ l2.takeWhile p := by
  intro l1
  induction l1 with
  | nil => intro l2 _; rfl
  | cons c t ih =>
    intro l2 h
    have hc : p c = true := h c (by simp)
    simp only [List.cons_append, List.takeWhile_cons, hc, if_true]
    rw [ih l2 (fun x hx => h x (by simp [hx]))]

theorem takeWhile_append_stops (p : Char → Bool) :
    ∀ (l1 l2 : List Char), (∃ x ∈ l1, p x = false) →
      (l1 ++ l2).takeWhile p = l1.takeWhile p := by
  intro l1
  induction l1 with
  | nil => intro l2 h; simp at h
  | cons c t ih =>
    intro l2 h
    by_cases hc : p c = true
    · simp only [List.cons_append, List.takeWhile_cons, hc, if_true]
      obtain ⟨x, hx, hpx⟩ := h
      rcases List.mem_cons.mp hx with rfl | hxt
      · rw [hpx] at hc; cases hc
      · rw [ih l2 ⟨x, hxt, hpx⟩]
    · have hc' : p c = false := by
        cases hpc : p c
        · rfl
        · exact absurd hpc hc
      simp [List.takeWhile_cons, hc']

theorem jsSplit_getLast? (sep : Char) :
    ∀ l : List Char, (jsSplit sep l).getLast? =
      some ((l.reverse.takeWhile (fun c => c != sep)).reverse) := by
  intro l
  induction l with
  | nil => rfl
  | cons c rest ih =>
    by_cases hmem : sep ∈ rest
    · have hrev : ((c :: rest).reverse.takeWhile (fun x => x != sep)) =
          (rest.reverse.takeWhile (fun x => x != sep)) := by
        rw [List.reverse_cons]
        exact takeWhile_append_stops _ _ _ ⟨sep, List.mem_reverse.mpr hmem, by simp⟩
      have hlen : 2 ≤ (jsSplit sep rest).length := by
        rw [jsSplit_length]
        have : 0 < rest.count sep := List.count_pos_iff.mpr hmem
        omega
      obtain ⟨seg, segs, hsplit⟩ : ∃ seg segs, jsSplit sep rest = seg :: segs := by
        cases hs : jsSplit sep rest with
        | nil => exact absurd hs (jsSplit_ne_nil sep rest)
        | cons a b => exact ⟨a, b, rfl⟩
      obtain ⟨s2, t2, hsegs⟩ : ∃ s2 t2, segs = s2 :: t2 := by
        cases segs with
        | nil => rw [hsplit] at hlen; simp at hlen
        | cons a b => exact ⟨a, b, rfl⟩
      have htail : (jsSplit sep (c :: rest)).getLast? = (jsSplit sep rest).getLast? := by
        simp only [jsSplit, hsplit, hsegs]
        by_cases hc : c = sep
        · rw [if_pos hc, List.getLast?_cons_cons]
        · rw [if_neg hc, List.getLast?_cons_cons, List.getLast?_cons_cons]
      rw [htail, ih, hrev]
    · have hall : ∀ x ∈ rest.reverse, (x != sep) = true := by
        intro x hx
        simp only [bne_iff_ne, ne_eq]
        intro hxc
        exact hmem (by rw [← hxc]; exact List.mem_reverse.mp hx)
      rw [List.reverse_cons, takeWhile_append_all _ _ _ hall]
      simp only [jsSplit, jsSplit_of_not_mem sep rest hmem]
      by_cases hc : c = sep
      · rw [if_pos hc]
        have h1 : ([c] : List Char).takeWhile (fun x => x != sep) = [] := by
          simp [List.takeWhile_cons, hc]
        rw [h1, List.append_nil, List.reverse_reverse, List.getLast?_cons_cons]
        rfl
      · rw [if_neg hc]
        have h1 : ([c] : List Char).takeWhile (fun x => x != sep) = [c] := by
          simp [List.takeWhile_cons, hc]
        rw [h1, List.reverse_append, List.reverse_reverse]
        simp

theorem jsSplit_getLastD (sep : Char) (l : List Char) :
    (jsSplit sep l).getLastD [] = (l.reverse.takeWhile (fun c => c != sep)).reverse := by
  rw [List.getLastD_eq_getLast?, jsSplit_getLast?]
  rfl

/-! ### Claim C9 -/

/-- C9, as stated, is false for the `Object.prototype` member names: at
`"toString"` the bracket lookup finds the inherited (truthy) member and
the function returns it, not the subtype segment the claim predicts. -/
theorem c9_mime_extension_cex :
    mimeToExtension "toString" = .inherited "toString" ∧
    mimeToExtensionSpec "toString" = "toString" ∧
    mimeToExtension "toString" ≠ .str (mimeToExtensionSpec "toString") :=
  ⟨rfl, rfl, by decide⟩

/-- C9 (amended): for every MIME type string that is not an
`Object.prototype` member name, `mimeToExtension` returns the table
entry for table keys, and otherwise the subtype segment after the last
`'/'` of the MIME string, falling back to `"bin"` when that segment is
empty; the excluded names return the truthy inherited prototype member
instead (`c9_mime_extension_cex`). -/
theorem c9_mime_extension :
    ∀ m : String, m ∉ OBJECT_PROTOTYPE_MEMBERS →
      mimeToExtension m = .str (mimeToExtensionSpec m) := by
  intro m hm
  rw [mimeToExtension, mimeToExtensionSpec]
  cases h : mimeExtensionTable.lookup m with
  | some e => rfl
  | none =>
    simp only [h]
    rw [if_neg hm]
    show (if String.mk ((jsSplit '/' m.data).getLastD []) = "" then MimeExt.str "bin"
      else .str (String.mk ((jsSplit '/' m.data).getLastD []))) = _
    have hseg : String.mk ((jsSplit '/' m.data).getLastD []) = String.mk (subtypeSeg m) := by
      rw [jsSplit_getLastD]
      rfl
    rw [hseg]
    by_cases hcase : subtypeSeg m = []
    · rw [if_pos (by rw [hcase]), if_pos hcase]
    · rw [if_neg (fun hh => hcase (by simpa using congrArg String.data hh)), if_neg hcase]

/-- Witness for C9: a table key and a non-key MIME type, neither a
prototype member name. -/
theorem c9_mime_extension_witness :
    mimeToExtension "image/png" = .str "png" ∧
    mimeToExtension "application/x-foo" = .str "x-foo" :=
  ⟨(c9_mime_extension "image/png" (by decide)).trans (by decide),
   (c9_mime_extension "application/x-foo" (by decide)).trans (by decide)⟩

/-! ### Transform parameter parser (claims C4, C5, C10) -/

/-- Numeric value of a decimal digit character. -/
def decDigitVal (c : Char) : Nat := c.toNat - 48

/-- The radix-10 branch of JS `parseInt`: value of the longest decimal
digit prefix, `none` (NaN) when it is empty. -/
def parseDecJs (l : List Char) : Option Nat :=
  let ds := l.takeWhile Char.isDigit
  if ds.isEmpty then none else some (ofBE 10 (ds.map decDigitVal))

/-- The radix-16 branch of JS `parseInt` after a `0x`/`0X` marker. -/
def parseHexJs (l : List Char) : Option Nat :=
  let ds := l.takeWhile (fun c => (hexVal c).isSome)
  if ds.isEmpty then none else some (ofBE 16 (ds.map (fun c => (hexVal c).getD 0)))

/-- `parseInt` magnitude with unspecified radix: a `0x`/`0X` marked
string parses as hex, anything else as decimal. -/
def parseUnsignedJs (l : List Char) : Option Nat :=
  match l with
  | c0 :: c1 :: rest =>
    if c0 = '0' ∧ (c1 = 'x' ∨ c1 = 'X') then parseHexJs rest else parseDecJs l
  | _ => parseDecJs l

/-- Number of halvings that bring `n` into the 53-bit significand range
(both arguments `n`: the first is fuel, always sufficient since at most
`log2 n` halvings are needed); the ulp of `n` as a double is `2 ^` this. -/
def sigShift : Nat → Nat → Nat
  | 0, _ => 0
  | fuel + 1, n => if n < 2 ^ 53 then 0 else sigShift fuel (n / 2) + 1

/-- A non-negative integer rounded to the nearest IEEE-754 double (round
half to even on the 53-bit significand), which is what a JS number holds
of a parsed digit string: exact below 2^53, rounded to a multiple of the
ulp above it. Magnitudes so large that the double overflows to Infinity
are kept as their rounded integer; the route compares the value with 0
and clamps it with `Math.min(·, 100)`, and both treat such an integer
and Infinity alike. -/
def roundToDouble (n : Nat) : Nat :=
  if n < 2 ^ 53 then n
  else
    let e := sigShift n n
    let q := n / 2 ^ e
    let r := n % 2 ^ e
    let half := 2 ^ (e - 1)
    let q2 :=
      if half < r then q + 1
      else if r < half then q
      else if q % 2 = 0 then q else q + 1
    q2 * 2 ^ e

theorem roundToDouble_small (n : Nat) (h : n < 2 ^ 53) : roundToDouble n = n := by
  rw [roundToDouble, if_pos h]

/-- JS `parseInt(s)` with no radix argument: skip leading whitespace,
optional sign, then the digit prefix, the magnitude rounded to the
nearest double; `none` models NaN. -/
def jsParseInt (s : String) : Option Int :=
  match s.data.dropWhile Char.isWhitespace with
  | [] => (parseUnsignedJs []).map (fun n => (roundToDouble n : Int))
  | c :: rest =>
    if c = '-' then (parseUnsignedJs rest).map (fun n => -(roundToDouble n : Int))
    else if c = '+' then (parseUnsignedJs rest).map (fun n => (roundToDouble n : Int))
    else (parseUnsignedJs (c :: rest)).map (fun n => (roundToDouble n : Int))

/-- The validated transform triple of `parseTransformParams`. -/
structure TransformParams where
  width : Option Int
  height : Option Int
  quality : Int
  deriving DecidableEq

/-- JS `x > 0` on a `parseInt` result (`NaN > 0` is false). -/
def optPos (o : Option Int) : Bool :=
  match o with
  | some v => decide (0 < v)
  | none => false

/-- `parseTransformParams` from `src/app/a/[hash]/[...name]/route.ts`:
`null` unless some parameter parses strictly positive; width/height kept
only when positive; quality clamped to 100 when positive, else 80. The
three arguments model `searchParams.get` results (`none` for a missing
parameter, which `|| ''` turns into the empty string). -/
def parseTransformParams (width height quality : Option String) :
    Option TransformParams :=
  let w := jsParseInt (width.getD "")
  let h := jsParseInt (height.getD "")
  let q := jsParseInt (quality.getD "")
  if optPos w || optPos h || optPos q then
    some { width := if optPos w then w else none
           height := if optPos h then h else none
           quality := match q with
             | some v => if 0 < v then min v 100 else 80
             | none => 80 }
  else none

theorem isDigit_not_ws (c : Char) (h : c.isDigit = true) : c.isWhitespace = false := by
  cases hw : c.isWhitespace
  · rfl
  · exfalso
    have hd : ((c = ' ' ∨ c = '\t') ∨ c = '\x0d') ∨ c = '\n' := by
      simpa [Char.isWhitespace] using hw
    rcases hd with ((rfl | rfl) | rfl) | rfl <;> exact absurd h (by decide)

theorem isDigit_ne_sign (c : Char) (h : c.isDigit = true) :
    c ≠ '-' ∧ c ≠ '+' ∧ c ≠ 'x' ∧ c ≠ 'X' := by
  refine ⟨?_, ?_, ?_, ?_⟩ <;> (intro hc; subst hc; exact absurd h (by decide))

/-- `parseInt` of a string made of a digit prefix followed by a
non-digit suffix returns the value of the prefix, when that value is
exactly representable as a double. -/
theorem jsParseInt_digit_prefix (s : String) (ds rest : List Char) (n : Nat)
    (hsplit : s.data = ds ++ rest)
    (hds : ∀ c ∈ ds, c.isDigit = true) (hne : ds ≠ [])
    (hrest : ∀ (c : Char) (t : List Char), rest = c :: t → c.isDigit = false)
    (hval : ofBE 10 (ds.map decDigitVal) = n) (hpos : 0 < n)
    (hsmall : n < 2 ^ 53) :
    jsParseInt s = some (n : Int) := by
  obtain ⟨d0, dt, rfl⟩ : ∃ d0 dt, ds = d0 :: dt := by
    cases ds with
    | nil => exact absurd rfl hne
    | cons a b => exact ⟨a, b, rfl⟩
  have hd0 : d0.isDigit = true := hds d0 (by simp)
  have hdec : parseDecJs ((d0 :: dt) ++ rest) = some n := by
    have htake : ((d0 :: dt) ++ rest).takeWhile Char.isDigit = d0 :: dt := by
      rw [takeWhile_append_all _ _ _ hds]
      have : rest.takeWhile Char.isDigit = [] := by
        cases hr : rest with
        | nil => rfl
        | cons c t =>
          have := hrest c t hr
          simp [List.takeWhile_cons, this]
      rw [this, List.append_nil]
    rw [parseDecJs]
    simp only [htake]
    rw [if_neg (by simp)]
    rw [hval]
  have hws : ((d0 :: dt) ++ rest).dropWhile Char.isWhitespace = (d0 :: dt) ++ rest := by
    simp [List.dropWhile_cons, isDigit_not_ws d0 hd0]
  rw [jsParseInt, hsplit, hws]
  simp only [List.cons_append]
  rw [if_neg (isDigit_ne_sign d0 hd0).1, if_neg (isDigit_ne_sign d0 hd0).2.1]
  have hEq : parseUnsignedJs (d0 :: (dt ++ rest)) = parseDecJs ((d0 :: dt) ++ rest) := by
    cases hdtr : dt ++ rest with
    | nil => simp only [parseUnsignedJs, List.cons_append, hdtr]
    | cons c1 r2 =>
      simp only [parseUnsignedJs, List.cons_append, hdtr]
      rw [if_neg ?hcond]
      case hcond =>
        intro hcontra
        obtain ⟨h0, hx⟩ := hcontra
        cases dt with
        | nil =>
          subst h0
          simp only [List.nil_append] at hdtr
          simp at hval
          rw [← hval] at hpos
          simp [ofBE, decDigitVal] at hpos
        | cons e et =>
          have he : e.isDigit = true := hds e (by simp)
          have : c1 = e := by
            simp only [List.cons_append, List.cons.injEq] at hdtr
            exact hdtr.1.symm
          subst this
          rcases hx with hx | hx
          · exact absurd hx (isDigit_ne_sign c1 he).2.2.1
          · exact absurd hx (isDigit_ne_sign c1 he).2.2.2
  rw [hEq, hdec]
  simp [roundToDouble_small n hsmall]

theorem jsParseInt_empty : jsParseInt "" = none := rfl

/-- A width value whose parse is not strictly positive behaves exactly
like an absent width. -/
theorem ptp_width_absent (v : String) (hv : optPos (jsParseInt v) = false)
    (h q : Option String) :
    parseTransformParams (some v) h q = parseTransformParams none h q := by
  simp only [parseTransformParams, Option.getD_some, Option.getD_none]
  rw [hv, jsParseInt_empty]
  simp [optPos]

/-- A height value whose parse is not strictly positive behaves exactly
like an absent height. -/
theorem ptp_height_absent (v : String) (hv : optPos (jsParseInt v) = false)
    (w q : Option String) :
    parseTransformParams w (some v) q = parseTransformParams w none q := by
  simp only [parseTransformParams, Option.getD_some, Option.getD_none]
  rw [hv, jsParseInt_empty]
  simp [optPos]

/-! ### Claim C4 -/

/-- C4: `width=0`, `width=-5` and `width=abc` (likewise for height) are
treated as absent; `quality=150` clamps to 100; `quality=0` behaves like
an absent quality, which defaults to 80 whenever a dimension is present;
all three absent yields the `none` ("no transform requested") marker.
(The parser is a total function, so it never raises.) -/
theorem c4_transform_rules :
    (∀ h q : Option String,
      parseTransformParams (some "0") h q = parseTransformParams none h q ∧
      parseTransformParams (some "-5") h q = parseTransformParams none h q ∧
      parseTransformParams (some "abc") h q = parseTransformParams none h q) ∧
    (∀ w q : Option String,
      parseTransformParams w (some "0") q = parseTransformParams w none q ∧
      parseTransformParams w (some "-5") q = parseTransformParams w none q ∧
      parseTransformParams w (some "abc") q = parseTransformParams w none q) ∧
    (∀ w h : Option String, ∃ t, parseTransformParams w h (some "150") = some t ∧
      t.quality = 100) ∧
    (∀ w h : Option String,
      parseTransformParams w h (some "0") = parseTransformParams w h none) ∧
    (∀ w h : Option String,
      (optPos (jsParseInt (w.getD "")) || optPos (jsParseInt (h.getD ""))) = true →
      ∃ t, parseTransformParams w h (some "0") = some t ∧ t.quality = 80) ∧
    parseTransformParams none none none = none := by
  refine ⟨?_, ?_, ?_, ?_, ?_, rfl⟩
  · intro h q
    exact ⟨ptp_width_absent "0" rfl h q, ptp_width_absent "-5" rfl h q,
      ptp_width_absent "abc" rfl h q⟩
  · intro w q
    exact ⟨ptp_height_absent "0" rfl w q, ptp_height_absent "-5" rfl w q,
      ptp_height_absent "abc" rfl w q⟩
  · intro w h
    simp only [parseTransformParams, Option.getD_some]
    rw [show jsParseInt "150" = some 150 from rfl]
    rw [show optPos (some (150 : Int)) = true from rfl]
    simp only [Bool.or_true, if_true]
    refine ⟨_, rfl, ?_⟩
    show (if (0 : Int) < 150 then min (150 : Int) 100 else 80) = 100
    norm_num
  · intro w h
    simp only [parseTransformParams, Option.getD_some, Option.getD_none]
    rw [show jsParseInt "0" = some 0 from rfl, jsParseInt_empty]
    simp [optPos]
  · intro w h hwh
    simp only [parseTransformParams, Option.getD_some]
    rw [show jsParseInt "0" = some 0 from rfl,
      show optPos (some (0 : Int)) = false from rfl]
    simp only [Bool.or_false, hwh, if_true]
    exact ⟨_, rfl, rfl⟩

/-- Witness for C4: the implication case at a concrete present width. -/
theorem c4_transform_rules_witness :
    ∃ t, parseTransformParams (some "10") none (some "0") = some t ∧
      t.quality = 80 :=
  c4_transform_rules.2.2.2.2.1 (some "10") none (by decide)

/-! ### Claim C10 -/

/-- C10, as stated, is false for digit prefixes at or above 2^53:
`parseInt` returns a double, so `width=99999999999999999999px` is parsed
to the rounded value 100000000000000000000, not the prefix value. -/
theorem c10_numeric_prefix_cex :
    jsParseInt "99999999999999999999px" = some 100000000000000000000 ∧
    (100000000000000000000 : Int) ≠ 99999999999999999999 ∧
    (∃ t, parseTransformParams (some "99999999999999999999px") none none = some t ∧
      t.width = some (100000000000000000000 : Int) ∧
      t.width ≠ some (99999999999999999999 : Int)) :=
  ⟨rfl, by decide, ⟨_, rfl, rfl, by decide⟩⟩

/-- C10 (amended): a query value made of a strictly positive
decimal-digit prefix followed by non-digit characters (e.g. `5px`) is
treated as present with the prefix value, for each of the three
parameters (for quality, the value then passes through the clamp),
provided the prefix value is below 2^53 and hence exactly representable
as a JS number; larger prefixes parse to the nearest double
(`c10_numeric_prefix_cex`). -/
theorem c10_numeric_prefix (s : String) (ds rest : List Char) (n : Nat)
    (hsplit : s.data = ds ++ rest)
    (hds : ∀ c ∈ ds, c.isDigit = true) (hne : ds ≠ [])
    (hrest : ∀ (c : Char) (t : List Char), rest = c :: t → c.isDigit = false)
    (hval : ofBE 10 (ds.map decDigitVal) = n) (hpos : 0 < n)
    (hsmall : n < 2 ^ 53) :
    jsParseInt s = some (n : Int) ∧
    (∀ h q : Option String, ∃ t, parseTransformParams (some s) h q = some t ∧
      t.width = some (n : Int)) ∧
    (∀ w q : Option String, ∃ t, parseTransformParams w (some s) q = some t ∧
      t.height = some (n : Int)) ∧
    (∀ w h : Option String, ∃ t, parseTransformParams w h (some s) = some t ∧
      t.quality = min (n : Int) 100) := by
  have hparse : jsParseInt s = some (n : Int) :=
    jsParseInt_digit_prefix s ds rest n hsplit hds hne hrest hval hpos hsmall
  have hopt : optPos (some (n : Int)) = true := by
    simp only [optPos, decide_eq_true_eq]
    exact_mod_cast hpos
  refine ⟨hparse, ?_, ?_, ?_⟩
  · intro h q
    simp only [parseTransformParams, Option.getD_some]
    rw [hparse, hopt]
    simp only [Bool.true_or, if_true]
    exact ⟨_, rfl, rfl⟩
  · intro w q
    simp only [parseTransformParams, Option.getD_some]
    rw [hparse, hopt]
    simp only [Bool.or_true, Bool.true_or, if_true]
    exact ⟨_, rfl, rfl⟩
  · intro w h
    simp only [parseTransformParams, Option.getD_some]
    rw [hparse, hopt]
    simp only [Bool.or_true, if_true]
    refine ⟨_, rfl, ?_⟩
    show (if (0 : Int) < (n : Int) then min (n : Int) 100 else 80) = min (n : Int) 100
    rw [if_pos (by exact_mod_cast hpos)]

/-- Witness for C10 at `5px`. -/
theorem c10_numeric_prefix_witness :
    jsParseInt "5px" = some 5 ∧
    (∃ t, parseTransformParams (some "5px") none none = some t ∧
      t.width = some 5) := by
  have h := c10_numeric_prefix "5px" ['5'] ['p', 'x'] 5 rfl (by decide) (by decide)
    (by rintro c t ⟨⟩; decide) rfl (by decide) (by decide)
  exact ⟨h.1, h.2.1 none none⟩

/-! ### Request orchestrator (claims C2, C3, C5, C8)

The route GET handler, with its external collaborators — the asset
catalog (`getAssetForProxy`), the canonical-path helper
(`getAssetProxyUrl`, whose source is outside the analysed files), the
storage client (`getSupabaseAdmin` / `getPublicUrl`), the upstream
`fetch` and the `sharp` transcoder — passed in as explicit functions.
Thrown exceptions of the two fallible external calls (`fetch` and the
transcode pipeline) are modelled as explicit failure values that the
handler maps to the 500 response, mirroring the route's `try/catch`. -/

/-- Asset record snapshot returned by the catalog. -/
structure Asset where
  storage_path : Option String
  mime_type : Option String
  filename : Option String
  deriving DecidableEq

/-- Outcome of the upstream `fetch`: success with the body bytes, a
non-success response, or a thrown networking error. -/
inductive FetchResult where
  | ok (bytes : List Nat)
  | notOk
  | throws
  deriving DecidableEq

/-- The operations the route feeds into `sharp`: an optional
`resize(width, height)` step and the `webp({ quality })` re-encode. -/
structure TranscodeJob where
  resize : Option (Option Int × Option Int)
  quality : Int
  deriving DecidableEq

/-- External collaborators of the GET handler.

`canonicalPathOf` — Modelled from the spec: `getAssetProxyUrl` of
`src/lib/asset-utils.ts` is not among the analysed sources; per the
spec it derives the canonical proxy path `/{prefix}/{token}/{cosmeticName}`
from the asset record, or no path when none is derivable, so it is kept
abstract here. `isImage` likewise models `isAssetOfType(mime,
ASSET_CATEGORIES.IMAGES)`. `transcode` returns `none` when the sharp
pipeline throws. -/
structure Deps where
  lookup : String → Option Asset
  canonicalPathOf : Asset → Option String
  supabaseAvailable : Bool
  publicUrlOf : String → String
  fetchUrl : String → FetchResult
  isImage : Option String → Bool
  transcode : List Nat → TranscodeJob → Option (List Nat)

/-- The request: decoded routing segments plus the query.  `search` is
the raw query string of the URL (empty or starting with ?); the three
`q…` fields model `searchParams.get` on it. -/
structure Req where
  hash : String
  name : List String
  origin : String
  search : String
  qWidth : Option String
  qHeight : Option String
  qQuality : Option String

/-- A response body: the minimal error texts, bytes, or the empty body
of a redirect. -/
inductive RespBody where
  | text (s : String)
  | bytes (b : List Nat)
  | empty
  deriving DecidableEq

/-- An HTTP response as the route builds it. -/
structure Resp where
  status : Nat
  body : RespBody
  contentType : Option String := none
  contentLength : Option Nat := none
  location : Option String := none
  deriving DecidableEq

def notFoundResp : Resp := { status := 404, body := .text "Not found" }

def serverErrorResp : Resp := { status := 500, body := .text "Internal server error" }

def unavailableResp : Resp := { status := 503, body := .text "Service unavailable" }

/-- `canonicalPath.split('/').slice(3).join('/')`: the name segment of
the canonical path. -/
def canonicalSeg (cp : String) : String :=
  String.intercalate "/" (((jsSplit '/' cp.data).drop 3).map (fun l => String.mk l))

/-- `name.join('/')`: the requested cosmetic name. -/
def requestedName (req : Req) : String :=
  String.intercalate "/" req.name

/-- JS `s || dflt` on an optional string (the empty string is falsy). -/
def jsStrOr (o : Option String) (dflt : String) : String :=
  match o with
  | some s => if s = "" then dflt else s
  | none => dflt

/-- The sharp pipeline the route builds from a transform: resize only
when a dimension is present (`transform.width || transform.height`),
then `webp({ quality })`. -/
def mkJob (t : TransformParams) : TranscodeJob :=
  { resize := if t.width.isSome || t.height.isSome then some (t.width, t.height) else none
    quality := t.quality }

/-- `Location` of the 301: `new URL(canonicalPath, url.origin)` with
`redirectUrl.search = url.search`, modelled for an absolute canonical
path with no query or fragment of its own. -/
def redirectLocation (origin cp search : String) : String :=
  origin ++ cp ++ search

/-- The tail of the handler after a successful fetch: parse the
transform, transcode when it is requested and the asset is an image,
else stream the original bytes with the stored MIME type (or the binary
fallback). -/
def serveFetched (d : Deps) (req : Req) (asset : Asset) (bytes : List Nat) : Resp :=
  match parseTransformParams req.qWidth req.qHeight req.qQuality with
  | some t =>
    if d.isImage asset.mime_type then
      match d.transcode bytes (mkJob t) with
      | some out =>
        { status := 200, body := .bytes out, contentType := some "image/webp",
          contentLength := some out.length }
      | none => serverErrorResp
    else
      { status := 200, body := .bytes bytes,
        contentType := some (jsStrOr asset.mime_type "application/octet-stream") }
  | none =>
    { status := 200, body := .bytes bytes,
      contentType := some (jsStrOr asset.mime_type "application/octet-stream") }

/-- Storage-client check, public URL resolution and fetch. -/
def serveAsset (d : Deps) (req : Req) (asset : Asset) (sp : String) : Resp :=
  if d.supabaseAvailable then
    match d.fetchUrl (d.publicUrlOf sp) with
    | .ok bytes => serveFetched d req asset bytes
    | .notOk => notFoundResp
    | .throws => serverErrorResp
  else unavailableResp

/-- Canonical-path comparison and 301, then the serving tail. -/
def checkCanonical (d : Deps) (req : Req) (asset : Asset) (sp : String) : Resp :=
  match d.canonicalPathOf asset with
  | some cp =>
    if requestedName req ≠ canonicalSeg cp then
      { status := 301, body := .empty,
        location := some (redirectLocation req.origin cp req.search) }
    else serveAsset d req asset sp
  | none => serveAsset d req asset sp

/-- The GET handler of `src/app/a/[hash]/[...name]/route.ts`: decode the
token, look the asset up, require a storage path (`!asset?.storage_path`
is falsy for a missing or empty path), redirect to the canonical path on
a name mismatch, then fetch and serve. -/
def GET (d : Deps) (req : Req) : Resp :=
  match base62ToUuid req.hash with
  | .error _ => notFoundResp
  | .ok assetId =>
    match d.lookup assetId with
    | none => notFoundResp
    | some asset =>
      match asset.storage_path with
      | none => notFoundResp
      | some sp => if sp = "" then notFoundResp else checkCanonical d req asset sp

/-- The canonical-path check does not redirect: either no canonical path
is derivable, or the requested name equals the canonical name. -/
def NoRedirect (d : Deps) (req : Req) (asset : Asset) : Prop :=
  match d.canonicalPathOf asset with
  | some cp => requestedName req = canonicalSeg cp
  | none => True

theorem GET_eq_checkCanonical (d : Deps) (req : Req) (assetId : String)
    (asset : Asset) (sp : String)
    (h1 : base62ToUuid req.hash = .ok assetId)
    (h2 : d.lookup assetId = some asset)
    (h3 : asset.storage_path = some sp) (h4 : sp ≠ "") :
    GET d req = checkCanonical d req asset sp := by
  rw [GET]
  simp only [h1, h2, h3]
  rw [if_neg h4]

theorem GET_eq_serveAsset (d : Deps) (req : Req) (assetId : String)
    (asset : Asset) (sp : String)
    (h1 : base62ToUuid req.hash = .ok assetId)
    (h2 : d.lookup assetId = some asset)
    (h3 : asset.storage_path = some sp) (h4 : sp ≠ "")
    (h5 : NoRedirect d req asset) :
    GET d req = serveAsset d req asset sp := by
  rw [GET_eq_checkCanonical d req assetId asset sp h1 h2 h3 h4]
  rcases hcp : d.canonicalPathOf asset with _ | cp
  · rw [checkCanonical]
    simp only [hcp]
  · have heq : requestedName req = canonicalSeg cp := by
      have h5c := h5
      simp only [NoRedirect, hcp] at h5c
      exact h5c
    rw [checkCanonical]
    simp only [hcp]
    rw [if_neg (by simp [heq])]

theorem GET_eq_serveFetched (d : Deps) (req : Req) (assetId : String)
    (asset : Asset) (sp : String) (bytes : List Nat)
    (h1 : base62ToUuid req.hash = .ok assetId)
    (h2 : d.lookup assetId = some asset)
    (h3 : asset.storage_path = some sp) (h4 : sp ≠ "")
    (h5 : NoRedirect d req asset)
    (h6 : d.supabaseAvailable = true)
    (h7 : d.fetchUrl (d.publicUrlOf sp) = .ok bytes) :
    GET d req = serveFetched d req asset bytes := by
  rw [GET_eq_serveAsset d req assetId asset sp h1 h2 h3 h4 h5, serveAsset, if_pos h6]
  simp only [h7]

theorem serveFetched_shapes (d : Deps) (req : Req) (asset : Asset) (bytes : List Nat) :
    serveFetched d req asset bytes = serverErrorResp ∨
    (∃ (b : List Nat) (ct : String) (cl : Option Nat),
      serveFetched d req asset bytes =
        { status := 200, body := .bytes b, contentType := some ct, contentLength := cl }) := by
  rw [serveFetched]
  split
  · split
    · split
      · exact Or.inr ⟨_, _, _, rfl⟩
      · exact Or.inl rfl
    · exact Or.inr ⟨_, _, _, rfl⟩
  · exact Or.inr ⟨_, _, _, rfl⟩

theorem serveAsset_shapes (d : Deps) (req : Req) (asset : Asset) (sp : String) :
    serveAsset d req asset sp = unavailableResp ∨
    serveAsset d req asset sp = notFoundResp ∨
    serveAsset d req asset sp = serverErrorResp ∨
    (∃ (b : List Nat) (ct : String) (cl : Option Nat),
      serveAsset d req asset sp =
        { status := 200, body := .bytes b, contentType := some ct, contentLength := cl }) := by
  rw [serveAsset]
  split
  · split
    · rename_i bytes heq
      rcases serveFetched_shapes d req asset bytes with h | h
      · exact Or.inr (Or.inr (Or.inl h))
      · exact Or.inr (Or.inr (Or.inr h))
    · exact Or.inr (Or.inl rfl)
    · exact Or.inr (Or.inr (Or.inl rfl))
  · exact Or.inl rfl

theorem GET_shapes (d : Deps) (req : Req) :
    GET d req = notFoundResp ∨ GET d req = serverErrorResp ∨
    GET d req = unavailableResp ∨
    (∃ loc, GET d req = { status := 301, body := .empty, location := some loc }) ∨
    (∃ (b : List Nat) (ct : String) (cl : Option Nat),
      GET d req =
        { status := 200, body := .bytes b, contentType := some ct, contentLength := cl }) := by
  have hserve : ∀ (asset : Asset) (sp : String),
      serveAsset d req asset sp = notFoundResp ∨
      serveAsset d req asset sp = serverErrorResp ∨
      serveAsset d req asset sp = unavailableResp ∨
      (∃ loc, serveAsset d req asset sp =
        { status := 301, body := .empty, location := some loc }) ∨
      (∃ (b : List Nat) (ct : String) (cl : Option Nat),
        serveAsset d req asset sp =
          { status := 200, body := .bytes b, contentType := some ct, contentLength := cl }) := by
    intro asset sp
    rcases serveAsset_shapes d req asset sp with h | h | h | h
    · exact Or.inr (Or.inr (Or.inl h))
    · exact Or.inl h
    · exact Or.inr (Or.inl h)
    · exact Or.inr (Or.inr (Or.inr (Or.inr h)))
  rw [GET]
  split
  · exact Or.inl rfl
  · split
    · exact Or.inl rfl
    · split
      · exact Or.inl rfl
      · split
        · exact Or.inl rfl
        · rw [checkCanonical]
          split
          · split
            · exact Or.inr (Or.inr (Or.inr (Or.inl ⟨_, rfl⟩)))
            · exact hserve _ _
          · exact hserve _ _

/-! ### Claim C2 -/

/-- C2: the orchestrator's failure-to-response mapping. An undecodable
token, a missing asset, a missing/empty storage path and a non-success
upstream fetch each yield 404 "Not found"; an unavailable storage client
yields 503 "Service unavailable"; a thrown fetch and a transcoding
failure yield 500 "Internal server error"; and every response of the
handler is one of 200, 301, 404, 503, 500, with each error status
carrying exactly its minimal body. -/
theorem c2_error_mapping :
    (∀ (d : Deps) (req : Req) (c : Char), firstInvalid req.hash = some c →
      GET d req = notFoundResp) ∧
    (∀ (d : Deps) (req : Req) (assetId : String),
      base62ToUuid req.hash = .ok assetId → d.lookup assetId = none →
      GET d req = notFoundResp) ∧
    (∀ (d : Deps) (req : Req) (assetId : String) (asset : Asset),
      base62ToUuid req.hash = .ok assetId → d.lookup assetId = some asset →
      (asset.storage_path = none ∨ asset.storage_path = some "") →
      GET d req = notFoundResp) ∧
    (∀ (d : Deps) (req : Req) (assetId : String) (asset : Asset) (sp : String),
      base62ToUuid req.hash = .ok assetId → d.lookup assetId = some asset →
      asset.storage_path = some sp → sp ≠ "" → NoRedirect d req asset →
      d.supabaseAvailable = false → GET d req = unavailableResp) ∧
    (∀ (d : Deps) (req : Req) (assetId : String) (asset : Asset) (sp : String),
      base62ToUuid req.hash = .ok assetId → d.lookup assetId = some asset →
      asset.storage_path = some sp → sp ≠ "" → NoRedirect d req asset →
      d.supabaseAvailable = true → d.fetchUrl (d.publicUrlOf sp) = .notOk →
      GET d req = notFoundResp) ∧
    (∀ (d : Deps) (req : Req) (assetId : String) (asset : Asset) (sp : String),
      base62ToUuid req.hash = .ok assetId → d.lookup assetId = some asset →
      asset.storage_path = some sp → sp ≠ "" → NoRedirect d req asset →
      d.supabaseAvailable = true → d.fetchUrl (d.publicUrlOf sp) = .throws →
      GET d req = serverErrorResp) ∧
    (∀ (d : Deps) (req : Req) (assetId : String) (asset : Asset) (sp : String)
      (bytes : List Nat) (t : TransformParams),
      base62ToUuid req.hash = .ok assetId → d.lookup assetId = some asset →
      asset.storage_path = some sp → sp ≠ "" → NoRedirect d req asset →
      d.supabaseAvailable = true → d.fetchUrl (d.publicUrlOf sp) = .ok bytes →
      parseTransformParams req.qWidth req.qHeight req.qQuality = some t →
      d.isImage asset.mime_type = true → d.transcode bytes (mkJob t) = none →
      GET d req = serverErrorResp) ∧
    (∀ (d : Deps) (req : Req),
      ((GET d req).status = 404 → (GET d req).body = .text "Not found") ∧
      ((GET d req).status = 503 → (GET d req).body = .text "Service unavailable") ∧
      ((GET d req).status = 500 → (GET d req).body = .text "Internal server error") ∧
      ((GET d req).status = 200 ∨ (GET d req).status = 301 ∨ (GET d req).status = 404 ∨
        (GET d req).status = 503 ∨ (GET d req).status = 500)) := by
  refine ⟨?_, ?_, ?_, ?_, ?_, ?_, ?_, ?_⟩
  · intro d req c hfi
    have hdec : base62ToUuid req.hash = .error c := by
      rw [base62ToUuid, b62Fold_eq_error c _ 0 hfi]
    rw [GET]
    simp only [hdec]
  · intro d req assetId h1 h2
    rw [GET]
    simp only [h1, h2]
  · intro d req assetId asset h1 h2 h3
    rw [GET]
    rcases h3 with h3 | h3
    · simp only [h1, h2, h3]
    · simp only [h1, h2, h3]
      simp
  · intro d req assetId asset sp h1 h2 h3 h4 h5 h6
    rw [GET_eq_serveAsset d req assetId asset sp h1 h2 h3 h4 h5, serveAsset,
      if_neg (by simp [h6])]
  · intro d req assetId asset sp h1 h2 h3 h4 h5 h6 h7
    rw [GET_eq_serveAsset d req assetId asset sp h1 h2 h3 h4 h5, serveAsset, if_pos h6]
    simp only [h7]
  · intro d req assetId asset sp h1 h2 h3 h4 h5 h6 h7
    rw [GET_eq_serveAsset d req assetId asset sp h1 h2 h3 h4 h5, serveAsset, if_pos h6]
    simp only [h7]
  · intro d req assetId asset sp bytes t h1 h2 h3 h4 h5 h6 h7 hp himg htc
    rw [GET_eq_serveFetched d req assetId asset sp bytes h1 h2 h3 h4 h5 h6 h7, serveFetched]
    simp only [hp]
    rw [if_pos himg]
    simp only [htc]
  · intro d req
    rcases GET_shapes d req with h | h | h | ⟨loc, h⟩ | ⟨b, ct, cl, h⟩ <;> rw [h]
    · exact ⟨fun _ => rfl,
        fun hc => absurd (show (404 : Nat) = 503 from hc) (by decide),
        fun hc => absurd (show (404 : Nat) = 500 from hc) (by decide),
        Or.inr (Or.inr (Or.inl rfl))⟩
    · exact ⟨fun hc => absurd (show (500 : Nat) = 404 from hc) (by decide),
        fun hc => absurd (show (500 : Nat) = 503 from hc) (by decide),
        fun _ => rfl,
        Or.inr (Or.inr (Or.inr (Or.inr rfl)))⟩
    · exact ⟨fun hc => absurd (show (503 : Nat) = 404 from hc) (by decide),
        fun _ => rfl,
        fun hc => absurd (show (503 : Nat) = 500 from hc) (by decide),
        Or.inr (Or.inr (Or.inr (Or.inl rfl)))⟩
    · exact ⟨fun hc => absurd (show (301 : Nat) = 404 from hc) (by decide),
        fun hc => absurd (show (301 : Nat) = 503 from hc) (by decide),
        fun hc => absurd (show (301 : Nat) = 500 from hc) (by decide),
        Or.inr (Or.inl rfl)⟩
    · exact ⟨fun hc => absurd (show (200 : Nat) = 404 from hc) (by decide),
        fun hc => absurd (show (200 : Nat) = 503 from hc) (by decide),
        fun hc => absurd (show (200 : Nat) = 500 from hc) (by decide),
        Or.inl rfl⟩

/-! ### Claim C3 -/

/-- C3: when a canonical path is derivable, a differing requested name
yields a 301 whose Location is the canonical path with the incoming
query string appended unchanged, and an equal name serves the request
as-is (the same continuation as when no canonical path is derivable,
which also never redirects). -/
theorem c3_canonical_redirect :
    ∀ (d : Deps) (req : Req) (assetId : String) (asset : Asset) (sp : String),
      base62ToUuid req.hash = .ok assetId →
      d.lookup assetId = some asset →
      asset.storage_path = some sp → sp ≠ "" →
      (∀ cp, d.canonicalPathOf asset = some cp →
        (requestedName req ≠ canonicalSeg cp →
          GET d req = { status := 301, body := .empty, location := some (req.origin ++ cp ++ req.search) }) ∧
        (requestedName req = canonicalSeg cp →
          GET d req = serveAsset d req asset sp)) ∧
      (d.canonicalPathOf asset = none → GET d req = serveAsset d req asset sp) := by
  intro d req assetId asset sp h1 h2 h3 h4
  constructor
  · intro cp hcp
    constructor
    · intro hne
      rw [GET_eq_checkCanonical d req assetId asset sp h1 h2 h3 h4, checkCanonical]
      simp only [hcp]
      rw [if_pos hne]
      rfl
    · intro heq
      exact GET_eq_serveAsset d req assetId asset sp h1 h2 h3 h4
        (by simp [NoRedirect, hcp, heq])
  · intro hcp
    exact GET_eq_serveAsset d req assetId asset sp h1 h2 h3 h4 (by simp [NoRedirect, hcp])

/-! ### Claim C5 -/

/-- C5: a valid quality alone — with no valid width or height — still
counts as "transform requested" for an image asset: the bytes go through
the sharp pipeline with no resize step, re-encoded at that quality (a
failing pipeline surfaces as the 500 response). -/
theorem c5_quality_only :
    ∀ (d : Deps) (req : Req) (assetId : String) (asset : Asset) (sp : String)
      (bytes : List Nat) (qs : String) (q : Int),
      base62ToUuid req.hash = .ok assetId → d.lookup assetId = some asset →
      asset.storage_path = some sp → sp ≠ "" → NoRedirect d req asset →
      d.supabaseAvailable = true → d.fetchUrl (d.publicUrlOf sp) = .ok bytes →
      d.isImage asset.mime_type = true →
      req.qQuality = some qs → jsParseInt qs = some q → 0 < q → q ≤ 100 →
      optPos (jsParseInt (req.qWidth.getD "")) = false →
      optPos (jsParseInt (req.qHeight.getD "")) = false →
      GET d req = (match d.transcode bytes { resize := none, quality := q } with
        | some out => { status := 200, body := .bytes out, contentType := some "image/webp", contentLength := some out.length }
        | none => serverErrorResp) := by
  intro d req assetId asset sp bytes qs q h1 h2 h3 h4 h5 h6 h7 himg hqq hq hqpos hqle hw hh
  have hop : optPos (some q) = true := by
    simp only [optPos, decide_eq_true_eq]
    exact hqpos
  have hparse : parseTransformParams req.qWidth req.qHeight req.qQuality =
      some { width := none, height := none, quality := q } := by
    simp only [parseTransformParams, hqq, Option.getD_some]
    rw [hq, hw, hh, hop]
    simp [min_eq_left hqle, hqpos]
  rw [GET_eq_serveFetched d req assetId asset sp bytes h1 h2 h3 h4 h5 h6 h7, serveFetched]
  simp only [hparse]
  rw [if_pos himg]
  rfl

/-! ### Claim C8 -/

/-- C8: a non-image asset is streamed through unmodified even when
transform parameters are present: the body is the fetched bytes, the
Content-Type is the stored MIME type (binary fallback when it is absent
or empty), and the response does not depend on the transcoder at all. -/
theorem c8_non_image_passthrough :
    ∀ (d : Deps) (req : Req) (assetId : String) (asset : Asset) (sp : String)
      (bytes : List Nat),
      base62ToUuid req.hash = .ok assetId → d.lookup assetId = some asset →
      asset.storage_path = some sp → sp ≠ "" → NoRedirect d req asset →
      d.supabaseAvailable = true → d.fetchUrl (d.publicUrlOf sp) = .ok bytes →
      d.isImage asset.mime_type = false →
      GET d req = { status := 200, body := .bytes bytes, contentType := some (jsStrOr asset.mime_type "application/octet-stream") } ∧
      (∀ tc, GET { d with transcode := tc } req = GET d req) := by
  intro d req assetId asset sp bytes h1 h2 h3 h4 h5 h6 h7 himg
  have key : ∀ (d' : Deps), d'.lookup assetId = some asset →
      NoRedirect d' req asset → d'.supabaseAvailable = true →
      d'.fetchUrl (d'.publicUrlOf sp) = .ok bytes →
      d'.isImage asset.mime_type = false →
      GET d' req = { status := 200, body := .bytes bytes, contentType := some (jsStrOr asset.mime_type "application/octet-stream") } := by
    intro d' k2 k5 k6 k7 k8
    rw [GET_eq_serveFetched d' req assetId asset sp bytes h1 k2 h3 h4 k5 k6 k7, serveFetched]
    split
    · rw [if_neg (by simp [k8])]
    · rfl
  refine ⟨key d h2 h5 h6 h7 himg, ?_⟩
  intro tc
  exact (key { d with transcode := tc } h2 h5 h6 h7 himg).trans (key d h2 h5 h6 h7 himg).symm

/-! ### Concrete instances for the witnesses -/

instance : DecidableEq (Except Char String) := fun a b =>
  match a, b with
  | .ok x, .ok y =>
    if h : x = y then isTrue (by rw [h]) else isFalse (by simp [h])
  | .error x, .error y =>
    if h : x = y then isTrue (by rw [h]) else isFalse (by simp [h])
  | .ok _, .error _ => isFalse (by simp)
  | .error _, .ok _ => isFalse (by simp)

def demoAsset : Asset :=
  { storage_path := some "p/obj", mime_type := some "image/png", filename := some "img.png" }

def demoAssetPdf : Asset :=
  { storage_path := some "p/doc", mime_type := some "application/pdf", filename := some "doc.pdf" }

def demoCanonical : String := "/a/0000000000000000000001/img.png"

def demoDeps : Deps :=
  { lookup := fun i => if i = "00000000-0000-0000-0000-000000000001" then some demoAsset else none
    canonicalPathOf := fun _ => some demoCanonical
    supabaseAvailable := true
    publicUrlOf := fun spath => "https://store/" ++ spath
    fetchUrl := fun _ => .ok [1, 2, 3]
    isImage := fun m => m == some "image/png"
    transcode := fun b j => some (b ++ [j.quality.toNat]) }

def demoDepsPdf : Deps :=
  { demoDeps with
    lookup := fun i => if i = "00000000-0000-0000-0000-000000000001" then some demoAssetPdf else none
    canonicalPathOf := fun _ => some "/a/0000000000000000000001/doc.pdf" }

def demoReq : Req :=
  { hash := "0000000000000000000001", name := ["img.png"], origin := "https://site",
    search := "", qWidth := none, qHeight := none, qQuality := none }

/-- Witness for C2: an undecodable token 404, an unavailable storage
client 503 and a failing transcode 500, each at concrete inputs. -/
theorem c2_error_mapping_witness :
    GET demoDeps { demoReq with hash := "bad!hash" } = notFoundResp ∧
    GET { demoDeps with supabaseAvailable := false } demoReq = unavailableResp ∧
    GET { demoDeps with transcode := fun _ _ => none }
      { demoReq with qQuality := some "55" } = serverErrorResp := by
  refine ⟨?_, ?_, ?_⟩
  · exact c2_error_mapping.1 demoDeps { demoReq with hash := "bad!hash" } '!' (by decide)
  · exact c2_error_mapping.2.2.2.1 { demoDeps with supabaseAvailable := false } demoReq
      "00000000-0000-0000-0000-000000000001" demoAsset "p/obj"
      (by decide) (by decide) rfl (by decide)
      (show requestedName demoReq = canonicalSeg demoCanonical by decide) rfl
  · exact c2_error_mapping.2.2.2.2.2.2.1 { demoDeps with transcode := fun _ _ => none }
      { demoReq with qQuality := some "55" }
      "00000000-0000-0000-0000-000000000001" demoAsset "p/obj" [1, 2, 3]
      { width := none, height := none, quality := 55 }
      (by decide) (by decide) rfl (by decide)
      (show requestedName { demoReq with qQuality := some "55" } = canonicalSeg demoCanonical
        by decide)
      rfl rfl (by decide) (by decide) rfl

/-- Witness for C3: a stale name 301-redirects to the canonical path
with the query string appended. -/
theorem c3_canonical_redirect_witness :
    GET demoDeps { demoReq with name := ["old.png"], search := "?width=9" } =
      { status := 301, body := .empty, location := some ("https://site" ++ demoCanonical ++ "?width=9") } := by
  have h := c3_canonical_redirect demoDeps { demoReq with name := ["old.png"], search := "?width=9" }
    "00000000-0000-0000-0000-000000000001" demoAsset "p/obj"
    (by decide) (by decide) rfl (by decide)
  exact (h.1 demoCanonical rfl).1 (by decide)

/-- Witness for C5: quality 55 alone re-encodes the demo image bytes
with no resize step. -/
theorem c5_quality_only_witness :
    GET demoDeps { demoReq with qQuality := some "55" } =
      { status := 200, body := .bytes [1, 2, 3, 55], contentType := some "image/webp", contentLength := some 4 } := by
  have h := c5_quality_only demoDeps { demoReq with qQuality := some "55" }
    "00000000-0000-0000-0000-000000000001" demoAsset "p/obj" [1, 2, 3] "55" 55
    (by decide) (by decide) rfl (by decide)
    (show requestedName { demoReq with qQuality := some "55" } = canonicalSeg demoCanonical
      by decide)
    rfl rfl (by decide) rfl (by decide) (by decide) (by decide) rfl rfl
  exact h.trans (by decide)

/-- Witness for C8: a PDF asset with a width parameter present is served
unmodified with its own MIME type. -/
theorem c8_non_image_passthrough_witness :
    GET demoDepsPdf { demoReq with name := ["doc.pdf"], qWidth := some "10" } =
      { status := 200, body := .bytes [1, 2, 3], contentType := some "application/pdf" } := by
  have h := c8_non_image_passthrough demoDepsPdf
    { demoReq with name := ["doc.pdf"], qWidth := some "10" }
    "00000000-0000-0000-0000-000000000001" demoAssetPdf "p/doc" [1, 2, 3]
    (by decide) (by decide) rfl (by decide)
    (show requestedName { demoReq with name := ["doc.pdf"], qWidth := some "10" } =
      canonicalSeg "/a/0000000000000000000001/doc.pdf" by decide)
    rfl rfl (by decide)
  exact h.1.trans (by decide)

end Ycode